import Mathlib

/-!
Shallow embedding of `src/command_and_event_traits.rs` (modular-fsm).

The Rust traits become Lean structures holding their method as a field;
the mutable effect handler `&mut H` becomes explicit state passing, so
`Command::execute(&self, &S, &mut H) -> Option<E>` becomes
`execute : C → S → H → Option E × H`.  A hook that may `panic!` is
modelled with `Option H`: `none` means the panic aborts the step, and
`step` itself therefore returns `Option (...)`, `none` marking an abort
propagating out of the hook.  The `u32` effect counters of the test
fixture become `Nat` with an explicit `% 2^32` at each increment.
-/

namespace ModularFsm

/-- Rust `enum Transition<S>`: transition into a new state (`Next`) or stay
in the existing state (`Same`). -/
inductive Transition (S : Type) where
  | Next : S → Transition S
  | Same : Transition S
deriving DecidableEq

/-- Rust `trait Lens<T>` on a state type `S`: extract a view of state, and
update state to accord with a view. -/
structure Lens (S T : Type) where
  extract : S → T
  inject : S → T → S

/-- Rust blanket `impl<S> Lens<S> for S`: `extract` returns `self`, `inject`
returns the given part. -/
def idLens (S : Type) : Lens S S where
  extract := fun s => s
  inject := fun _ part => part

/-- Rust `trait Event<S>`: `fire` is a pure function from the event and a
state to a transition. -/
structure Event (E S : Type) where
  fire : E → S → Transition S

/-- Rust `trait Command<S, H>` with associated `Output` event type `E`:
`execute` reads the state, may perform an effect on the handler, and may
produce an event.  The handler mutation is the second component of the
result. -/
structure Command (C S H E : Type) where
  execute : C → S → H → Option E × H

/-- Rust `trait Fsm<S, H>`: its only overridable behaviour relevant here is
the `on_transition` hook, whose provided default is a no-op.  A hook result
of `none` models an application hook that panics. -/
structure Fsm (S H : Type) where
  on_transition : S → S → H → Option H := fun _ _ h => some h

variable {S T H C E : Type}

/-- Rust `Fsm::for_command`: `command.execute(state.extract(), handler)`. -/
def for_command (L : Lens S T) (cmd : Command C T H E) (state : S) (c : C)
    (handler : H) : Option E × H :=
  cmd.execute c (L.extract state) handler

/-- Rust `Fsm::for_event`: fire the event against the extracted view and
lift the resulting transition back to the whole state via `inject`; `Same`
lifts to `Same`.  No handler is taken: the phase is pure. -/
def for_event (L : Lens S T) (ev : Event E T) (state : S) (e : E) :
    Transition S :=
  match ev.fire e (L.extract state) with
  | Transition.Next t => Transition.Next (L.inject state t)
  | Transition.Same => Transition.Same

/-- Rust `Fsm::step`: run `for_command`; if an event results, run
`for_event`; if that transition is `Next`, invoke `on_transition` on the
old and new whole states; return the event/transition pair.  In the Rust
signature `C : Command<S, H>`, so the views are the blanket identity lens. -/
def step (F : Fsm S H) (cmd : Command C S H E) (ev : Event E S) (state : S)
    (c : C) (handler : H) : Option ((Option E × Transition S) × H) :=
  match for_command (idLens S) cmd state c handler with
  | (some e, h1) =>
    match for_event (idLens S) ev state e with
    | Transition.Next new_s =>
      match F.on_transition state new_s h1 with
      | some h2 => some ((some e, Transition.Next new_s), h2)
      | none => none
    | Transition.Same => some ((some e, Transition.Same), h1)
  | (none, h1) => some ((none, Transition.Same), h1)

/-- Instrumentation of `step`: the list of `(old state, new state, handler)`
argument triples with which `step` invokes `on_transition`, read off the
same control flow as `step`.  The hook is called at most once and its
result cannot influence which calls are made, so the trace does not depend
on the hook implementation. -/
def stepHookCalls (cmd : Command C S H E) (ev : Event E S) (state : S)
    (c : C) (handler : H) : List (S × S × H) :=
  match for_command (idLens S) cmd state c handler with
  | (some e, h1) =>
    match for_event (idLens S) ev state e with
    | Transition.Next new_s => [(state, new_s, h1)]
    | Transition.Same => []
  | (none, _) => []

/-- Modelled from the spec: the hypothetical non-lensed direct invocation
of `execute`/`fire` on the whole state, against which identity-view
transparency of `step` is stated.  No lens is consulted: `execute` and
`fire` receive the whole state directly and a `Next` transition of the
fired event is returned as produced. -/
def stepDirect (F : Fsm S H) (cmd : Command C S H E) (ev : Event E S)
    (state : S) (c : C) (handler : H) :
    Option ((Option E × Transition S) × H) :=
  match cmd.execute c state handler with
  | (some e, h1) =>
    match ev.fire e state with
    | Transition.Next new_s =>
      match F.on_transition state new_s h1 with
      | some h2 => some ((some e, Transition.Next new_s), h2)
      | none => none
    | Transition.Same => some ((some e, Transition.Same), h1)
  | (none, h1) => some ((none, Transition.Same), h1)

/-- Operational reading of one run of `step`, one constructor per control
path of the Rust code: no event; event fired but `Same`; event fired,
`Next`, hook returned; event fired, `Next`, hook panicked. -/
inductive StepRel (F : Fsm S H) (cmd : Command C S H E) (ev : Event E S) :
    S → C → H → Option ((Option E × Transition S) × H) → Prop where
  | no_event : ∀ state c handler h1,
      for_command (idLens S) cmd state c handler = (none, h1) →
      StepRel F cmd ev state c handler (some ((none, Transition.Same), h1))
  | fired_same : ∀ state c handler e h1,
      for_command (idLens S) cmd state c handler = (some e, h1) →
      for_event (idLens S) ev state e = Transition.Same →
      StepRel F cmd ev state c handler (some ((some e, Transition.Same), h1))
  | fired_next : ∀ state c handler e h1 new_s h2,
      for_command (idLens S) cmd state c handler = (some e, h1) →
      for_event (idLens S) ev state e = Transition.Next new_s →
      F.on_transition state new_s h1 = some h2 →
      StepRel F cmd ev state c handler
        (some ((some e, Transition.Next new_s), h2))
  | hook_aborts : ∀ state c handler e h1 new_s,
      for_command (idLens S) cmd state c handler = (some e, h1) →
      for_event (idLens S) ev state e = Transition.Next new_s →
      F.on_transition state new_s h1 = none →
      StepRel F cmd ev state c handler none

/-- Soundness of the operational reading: the function `step` realises one
run of the relation. -/
theorem stepRel_of_step (F : Fsm S H) (cmd : Command C S H E)
    (ev : Event E S) (state : S) (c : C) (handler : H) :
    StepRel F cmd ev state c handler (step F cmd ev state c handler) := by
  rcases hc : for_command (idLens S) cmd state c handler with ⟨r, h1⟩
  cases r with
  | none =>
    simp only [step, hc]
    exact StepRel.no_event state c handler h1 hc
  | some e =>
    cases hf : for_event (idLens S) ev state e with
    | Same =>
      simp only [step, hc, hf]
      exact StepRel.fired_same state c handler e h1 hc hf
    | Next new_s =>
      cases hh : F.on_transition state new_s h1 with
      | none =>
        simp only [step, hc, hf, hh]
        exact StepRel.hook_aborts state c handler e h1 new_s hc hf hh
      | some h2 =>
        simp only [step, hc, hf, hh]
        exact StepRel.fired_next state c handler e h1 new_s h2 hc hf hh

/-- Test fixture state: `enum State { Started, Stopped }`. -/
inductive TState where
  | Started
  | Stopped
deriving DecidableEq

/-- Test fixture command: `enum Command { Start, Stop }`. -/
inductive TCommand where
  | Start
  | Stop
deriving DecidableEq

/-- Test fixture event: `enum Event { Started, Stopped }`. -/
inductive TEvent where
  | Started
  | Stopped
deriving DecidableEq

/-- Test fixture effect handler: four `u32` counters, modelled as `Nat`
incremented modulo `2^32`. -/
structure EffectHandlers where
  started : Nat
  stopped : Nat
  transitioned_stopped_to_started : Nat
  transitioned_started_to_stopped : Nat
deriving DecidableEq

/-- Fixture method `start_something`: `self.started += 1` on a `u32`. -/
def start_something (se : EffectHandlers) : EffectHandlers :=
  { se with started := (se.started + 1) % 4294967296 }

/-- Fixture method `stop_something`: `self.stopped += 1` on a `u32`. -/
def stop_something (se : EffectHandlers) : EffectHandlers :=
  { se with stopped := (se.stopped + 1) % 4294967296 }

/-- Fixture method `transitioned_started_to_stopped`: increment that
counter. -/
def transitioned_started_to_stopped (se : EffectHandlers) : EffectHandlers :=
  { se with transitioned_started_to_stopped :=
      (se.transitioned_started_to_stopped + 1) % 4294967296 }

/-- Fixture method `transitioned_stopped_to_started`: increment that
counter. -/
def transitioned_stopped_to_started (se : EffectHandlers) : EffectHandlers :=
  { se with transitioned_stopped_to_started :=
      (se.transitioned_stopped_to_started + 1) % 4294967296 }

/-- Fixture `impl Command<State, EffectHandlers> for Command`: `Start` on
`Stopped` performs `start_something` and emits `Started`; `Stop` on
`Started` performs `stop_something` and emits `Stopped`; the other two
pairs emit nothing. -/
def toggleCommand : Command TCommand TState EffectHandlers TEvent where
  execute := fun c s se =>
    match s, c with
    | TState.Started, TCommand.Start => (none, se)
    | TState.Started, TCommand.Stop => (some TEvent.Stopped, stop_something se)
    | TState.Stopped, TCommand.Start => (some TEvent.Started, start_something se)
    | TState.Stopped, TCommand.Stop => (none, se)

/-- Fixture `impl Event<State> for Event`: `Stopped` fired on `Started`
gives `Next(Stopped)`, `Started` fired on `Stopped` gives `Next(Started)`,
the matching pairs give `Same`. -/
def toggleEvent : Event TEvent TState where
  fire := fun e s =>
    match s, e with
    | TState.Started, TEvent.Started => Transition.Same
    | TState.Started, TEvent.Stopped => Transition.Next TState.Stopped
    | TState.Stopped, TEvent.Started => Transition.Next TState.Started
    | TState.Stopped, TEvent.Stopped => Transition.Same

/-- Fixture `impl Fsm<State, EffectHandlers> for MyFsm`: the overridden
`on_transition` bumps the matching transition counter and panics
(modelled as `none`) on any other `(old, new)` pair. -/
def myFsm : Fsm TState EffectHandlers where
  on_transition := fun old_s new_s se =>
    match old_s, new_s with
    | TState.Started, TState.Stopped => some (transitioned_started_to_stopped se)
    | TState.Stopped, TState.Started => some (transitioned_stopped_to_started se)
    | _, _ => none

/-- Rust `impl Fsm` with nothing overridden: the `on_transition` field
keeps its provided default no-op. -/
def default_fsm (S H : Type) : Fsm S H := {}

/-- C1: whenever the command phase of `step` (`for_command`, i.e.
`execute` on the extracted state) returns no event, `step` returns the
pair `(None, Same)`, the handler carries only the mutation `execute`
itself made, and `on_transition` is not invoked. -/
theorem step_none_gives_same (F : Fsm S H) (cmd : Command C S H E)
    (ev : Event E S) (state : S) (c : C) (handler h1 : H)
    (hc : for_command (idLens S) cmd state c handler = (none, h1)) :
    step F cmd ev state c handler = some ((none, Transition.Same), h1) ∧
    stepHookCalls cmd ev state c handler = [] := by
  constructor <;> simp only [step, stepHookCalls, hc]

/-- Witness for C1 at the toggle fixture: `Start` on `Started` produces no
event, so `step` yields `(None, Same)` with the handler untouched and the
hook is never invoked. -/
theorem step_none_gives_same_witness :
    step myFsm toggleCommand toggleEvent TState.Started TCommand.Start
      ⟨0, 0, 0, 0⟩ = some ((none, Transition.Same), ⟨0, 0, 0, 0⟩) ∧
    stepHookCalls toggleCommand toggleEvent TState.Started TCommand.Start
      ⟨0, 0, 0, 0⟩ = [] :=
  step_none_gives_same myFsm toggleCommand toggleEvent TState.Started
    TCommand.Start ⟨0, 0, 0, 0⟩ ⟨0, 0, 0, 0⟩ rfl

/-- C2: `step` invokes `on_transition` exactly when the lifted whole-state
transition is `Next`; then it is invoked exactly once, with the whole old
state passed to `step`, the whole new state carried by the returned
`Next`, and the handler as left by the command phase, and its handler
result is what `step` returns (so it runs after the transition is computed
and before `step` returns).  It is not invoked when no event was produced,
nor when the event fired but produced `Same`. -/
theorem step_hook_iff_next (F : Fsm S H) (cmd : Command C S H E)
    (ev : Event E S) (state : S) (c : C) (handler : H) (e : E) (h1 : H)
    (new_s : S) :
    (for_command (idLens S) cmd state c handler = (some e, h1) →
      for_event (idLens S) ev state e = Transition.Next new_s →
      stepHookCalls cmd ev state c handler = [(state, new_s, h1)] ∧
      step F cmd ev state c handler =
        Option.map (fun h2 => ((some e, Transition.Next new_s), h2))
          (F.on_transition state new_s h1)) ∧
    (for_command (idLens S) cmd state c handler = (some e, h1) →
      for_event (idLens S) ev state e = Transition.Same →
      stepHookCalls cmd ev state c handler = []) ∧
    (for_command (idLens S) cmd state c handler = (none, h1) →
      stepHookCalls cmd ev state c handler = []) := by
  refine ⟨fun hc hf => ⟨?_, ?_⟩, fun hc hf => ?_, fun hc => ?_⟩
  · simp only [stepHookCalls, hc, hf]
  · cases hh : F.on_transition state new_s h1 <;>
      simp only [step, hc, hf, hh, Option.map_none', Option.map_some']
  · simp only [stepHookCalls, hc, hf]
  · simp only [stepHookCalls, hc]

/-- Witness for C2 at the toggle fixture: `Start` on `Stopped` yields the
lifted transition `Next(Started)`, the hook is invoked exactly once with
the whole-state pair and the post-command handler, and its output is the
handler `step` returns. -/
theorem step_hook_iff_next_witness :
    stepHookCalls toggleCommand toggleEvent TState.Stopped TCommand.Start
      ⟨0, 0, 0, 0⟩ = [(TState.Stopped, TState.Started, ⟨1, 0, 0, 0⟩)] ∧
    step myFsm toggleCommand toggleEvent TState.Stopped TCommand.Start
      ⟨0, 0, 0, 0⟩ =
      Option.map
        (fun h2 => ((some TEvent.Started, Transition.Next TState.Started), h2))
        (myFsm.on_transition TState.Stopped TState.Started ⟨1, 0, 0, 0⟩) :=
  (step_hook_iff_next myFsm toggleCommand toggleEvent TState.Stopped
    TCommand.Start ⟨0, 0, 0, 0⟩ TEvent.Started ⟨1, 0, 0, 0⟩
    TState.Started).1 rfl rfl

/-- C3: `for_event` lifts the fired transition through the lens: a `Next t`
from `fire` on the extracted part becomes `Next (inject s t)`, and `Same`
stays `Same`; `for_event` takes no effect handler, so the phase is pure. -/
theorem for_event_lifts (L : Lens S T) (ev : Event E T) (s : S) (e : E) :
    (∀ t, ev.fire e (L.extract s) = Transition.Next t →
      for_event L ev s e = Transition.Next (L.inject s t)) ∧
    (ev.fire e (L.extract s) = Transition.Same →
      for_event L ev s e = Transition.Same) := by
  constructor
  · intro t hf
    simp only [for_event, hf]
  · intro hf
    simp only [for_event, hf]

/-- Witness for C3 at the toggle fixture with the identity lens: firing
`Started` on `Stopped` lifts to `Next` of the injected part, and firing
`Stopped` on `Stopped` lifts to `Same`. -/
theorem for_event_lifts_witness :
    for_event (idLens TState) toggleEvent TState.Stopped TEvent.Started =
      Transition.Next ((idLens TState).inject TState.Stopped TState.Started) ∧
    for_event (idLens TState) toggleEvent TState.Stopped TEvent.Stopped =
      Transition.Same :=
  ⟨(for_event_lifts (idLens TState) toggleEvent TState.Stopped
      TEvent.Started).1 TState.Started rfl,
    (for_event_lifts (idLens TState) toggleEvent TState.Stopped
      TEvent.Stopped).2 rfl⟩

/-- C4: the blanket identity lens is lawful in both round-trip directions:
extracting after injecting observes the injected part, and injecting the
extracted part reproduces the state. -/
theorem id_lens_lawful (S : Type) (s t : S) :
    (idLens S).extract ((idLens S).inject s t) = t ∧
    (idLens S).inject s ((idLens S).extract s) = s :=
  ⟨rfl, rfl⟩

/-- C5: with the blanket identity view, `step` is observably identical to
the non-lensed direct invocation of `execute`/`fire` on the whole state
(`stepDirect`, written from the spec's words): same event component, same
transition, same hook arguments and same final handler. -/
theorem step_identity_transparent (F : Fsm S H) (cmd : Command C S H E)
    (ev : Event E S) (state : S) (c : C) (handler : H) :
    step F cmd ev state c handler = stepDirect F cmd ev state c handler := by
  rcases hx : cmd.execute c state handler with ⟨r, h1⟩
  have hc : for_command (idLens S) cmd state c handler = (r, h1) := hx
  cases r with
  | none => simp only [step, stepDirect, hc, hx]
  | some e =>
    cases hf : ev.fire e state with
    | Same =>
      have hfe : for_event (idLens S) ev state e = Transition.Same := by
        simp only [for_event, idLens, hf]
      simp only [step, stepDirect, hc, hx, hfe, hf]
    | Next t =>
      have hfe : for_event (idLens S) ev state e = Transition.Next t := by
        simp only [for_event, idLens, hf]
      simp only [step, stepDirect, hc, hx, hfe, hf]

/-- C6: in the toggle fixture, `Start` on `Stopped` yields
`(Some(Started), Next(Started))` and bumps the start count and the
stopped-to-started hook counter each by exactly 1; `Stop` on `Started`
yields `(Some(Stopped), Next(Stopped))` and bumps the stop count and the
started-to-stopped hook counter each by exactly 1; the two inapplicable
commands yield `(None, Same)` and change no counter.  The bounds keep the
`u32` increments below the wrap at `2^32`. -/
theorem toggle_step_scenarios (se : EffectHandlers)
    (hb1 : se.started + 1 < 4294967296)
    (hb2 : se.stopped + 1 < 4294967296)
    (hb3 : se.transitioned_stopped_to_started + 1 < 4294967296)
    (hb4 : se.transitioned_started_to_stopped + 1 < 4294967296) :
    step myFsm toggleCommand toggleEvent TState.Stopped TCommand.Start se =
      some ((some TEvent.Started, Transition.Next TState.Started),
        { se with started := se.started + 1,
                  transitioned_stopped_to_started :=
                    se.transitioned_stopped_to_started + 1 }) ∧
    step myFsm toggleCommand toggleEvent TState.Started TCommand.Stop se =
      some ((some TEvent.Stopped, Transition.Next TState.Stopped),
        { se with stopped := se.stopped + 1,
                  transitioned_started_to_stopped :=
                    se.transitioned_started_to_stopped + 1 }) ∧
    step myFsm toggleCommand toggleEvent TState.Started TCommand.Start se =
      some ((none, Transition.Same), se) ∧
    step myFsm toggleCommand toggleEvent TState.Stopped TCommand.Stop se =
      some ((none, Transition.Same), se) := by
  refine ⟨?_, ?_, ?_, ?_⟩ <;>
    simp [step, for_command, for_event, idLens, toggleCommand, toggleEvent,
      myFsm, start_something, stop_something, transitioned_started_to_stopped,
      transitioned_stopped_to_started, Nat.mod_eq_of_lt hb1,
      Nat.mod_eq_of_lt hb2, Nat.mod_eq_of_lt hb3, Nat.mod_eq_of_lt hb4]

/-- Witness for C6 at the all-zero handler: the overflow bounds hold and
`Start` on `Stopped` bumps the start count and the stopped-to-started
counter from 0 to 1. -/
theorem toggle_step_scenarios_witness :
    (0 + 1 < 4294967296) ∧
    step myFsm toggleCommand toggleEvent TState.Stopped TCommand.Start
      ⟨0, 0, 0, 0⟩ =
      some ((some TEvent.Started, Transition.Next TState.Started),
        ⟨0 + 1, 0, 0 + 1, 0⟩) :=
  ⟨by decide,
    (toggle_step_scenarios ⟨0, 0, 0, 0⟩ (by decide) (by decide) (by decide)
      (by decide)).1⟩

/-- C7: one run of `step` is deterministic: two runs from the same state,
command and prior handler state produce the same event/transition pair and
the same final handler state. -/
theorem step_deterministic (F : Fsm S H) (cmd : Command C S H E)
    (ev : Event E S) (state : S) (c : C) (handler : H)
    (r1 r2 : Option ((Option E × Transition S) × H))
    (d1 : StepRel F cmd ev state c handler r1)
    (d2 : StepRel F cmd ev state c handler r2) : r1 = r2 := by
  cases d1 <;> cases d2 <;> simp_all

/-- Witness for C7: two concrete runs of the toggle fixture from
`(Stopped, Start)` over the zero handler, both derived by the
`fired_next` rule, agree. -/
theorem step_deterministic_witness :
    (some ((some TEvent.Started, Transition.Next TState.Started),
        (⟨1, 0, 1, 0⟩ : EffectHandlers)) :
      Option ((Option TEvent × Transition TState) × EffectHandlers)) =
    some ((some TEvent.Started, Transition.Next TState.Started),
      ⟨1, 0, 1, 0⟩) := by
  have d : StepRel myFsm toggleCommand toggleEvent TState.Stopped
      TCommand.Start ⟨0, 0, 0, 0⟩
      (some ((some TEvent.Started, Transition.Next TState.Started),
        ⟨1, 0, 1, 0⟩)) := by
    refine StepRel.fired_next TState.Stopped TCommand.Start
      (⟨0, 0, 0, 0⟩ : EffectHandlers) TEvent.Started
      (⟨1, 0, 0, 0⟩ : EffectHandlers) TState.Started
      (⟨1, 0, 1, 0⟩ : EffectHandlers) ?_ ?_ ?_ <;> rfl
  exact step_deterministic myFsm toggleCommand toggleEvent TState.Stopped
    TCommand.Start ⟨0, 0, 0, 0⟩ _ _ d d

/-- C8: the default (non-overridden) `on_transition` is a no-op that
leaves the handler unchanged, so under it the final handler of `step` is
exactly the handler as left by the command phase. -/
theorem default_hook_noop (cmd : Command C S H E) (ev : Event E S)
    (old_s new_s state : S) (c : C) (handler : H) :
    (default_fsm S H).on_transition old_s new_s handler = some handler ∧
    Option.map Prod.snd (step (default_fsm S H) cmd ev state c handler) =
      some (for_command (idLens S) cmd state c handler).2 := by
  constructor
  · rfl
  · rcases hc : for_command (idLens S) cmd state c handler with ⟨r, h1⟩
    cases r with
    | none => simp [step, hc]
    | some e =>
      cases hf : for_event (idLens S) ev state e <;>
        simp [step, hc, hf, default_fsm]

/-- C9: in the toggle fixture, for every starting state and command,
`step` completes (the hook's panic branch is never reached) and the hook
is only ever invoked on the pairs `(Stopped, Started)` or
`(Started, Stopped)`. -/
theorem toggle_no_panic (s : TState) (c : TCommand) (se : EffectHandlers) :
    (step myFsm toggleCommand toggleEvent s c se).isSome = true ∧
    ((stepHookCalls toggleCommand toggleEvent s c se).map
        (fun p => (p.1, p.2.1)) = [] ∨
      (stepHookCalls toggleCommand toggleEvent s c se).map
        (fun p => (p.1, p.2.1)) = [(TState.Stopped, TState.Started)] ∨
      (stepHookCalls toggleCommand toggleEvent s c se).map
        (fun p => (p.1, p.2.1)) = [(TState.Started, TState.Stopped)]) := by
  cases s <;> cases c <;>
    simp [step, stepHookCalls, for_command, for_event, idLens, toggleCommand,
      toggleEvent, myFsm]

/-- C10: the blanket identity lens's `inject` discards the previous whole
state entirely: injecting the same part into any two states gives the same
result, namely the part itself. -/
theorem id_lens_inject_discards (S : Type) (s s' t : S) :
    (idLens S).inject s t = (idLens S).inject s' t ∧
    (idLens S).inject s t = t :=
  ⟨rfl, rfl⟩

end ModularFsm
